import Mathlib

/-!
Verification of the per-frame face-detection script
`deteccion_caras_haar.py` (OpenCV Haar-cascade demo).

The script's own logic is embedded shallowly:

* `Rect` is a detector rectangle `(x, y, fw, fh)`;
* `selectLargest` embeds `max(faces, key=lambda rect: rect[2]*rect[3])`
  (Python `max` keeps the first element among equal-key maxima);
* `processFrame` embeds the per-frame body: the sentinel `(0.0, 0.0, 0.0)`
  when no face is detected, and otherwise
  `cx = x + fw // 2`, `cy = y + fh // 2`,
  `msg_x = (cx - w // 2) / (w // 2)`, `msg_y = (cy - h // 2) / (h // 2)`,
  `msg_z = fw * fh`, together with the drawn overlay.  The operands of the
  true divisions are numpy `int32` values (the detection array is `int32`),
  so a zero divisor does not raise: numpy emits a RuntimeWarning and the
  quotient is `inf`, `-inf` or `nan`, and the iteration continues.  Finite
  quotients are modelled exactly over `ℚ` and the non-finite outcomes by
  the `PyFloat` constructors `inf`, `ninf` and `nan`; `processFrame` is
  total, as the per-frame body always completes;
* `loopRun` / `program` embed the `while True` loop, the startup
  `cap.isOpened()` check and the final `cap.release()` /
  `cv2.destroyAllWindows()` calls, against a stub video source and display
  surface (`Sim`), producing an action trace and an outcome.  Since the
  per-frame body always completes, the loop's control flow depends only on
  the read result and on window visibility.
-/

/-- A detector rectangle `(x, y, w, h)` as returned by
`detectMultiScale`: top-left corner and size, in pixels. -/
structure Rect where
  x : Nat
  y : Nat
  fw : Nat
  fh : Nat
deriving DecidableEq, Repr

/-- Bounding-box area `rect[2] * rect[3]`, the key of the `max` call. -/
def area (r : Rect) : Nat := r.fw * r.fh

/-- One fold step of Python `max` with a key: the current best is replaced
only when the new element's key is strictly greater, so the first of several
equal-key maxima is kept. -/
def largerOf (best cur : Rect) : Rect :=
  if area best < area cur then cur else best

/-- `max(faces, key=lambda rect: rect[2] * rect[3])`, returning `none` for
an empty list (the script only calls it under `len(faces) > 0`). -/
def selectLargest : List Rect → Option Rect
  | [] => none
  | r :: rs => some (rs.foldl largerOf r)

/-- The value of a numpy true division of integer scalars: a finite
quotient (modelled exactly), or `inf` / `-inf` / `nan` when the divisor is
zero (numpy warns instead of raising `ZeroDivisionError`). -/
inductive PyFloat where
  | fin (q : ℚ)
  | inf
  | ninf
  | nan
deriving DecidableEq, Repr

/-- Whether a numpy division result is a finite number. -/
def PyFloat.isFinite : PyFloat → Bool
  | .fin _ => true
  | _ => false

/-- numpy true division `a / b` of integer scalars: by zero it yields
`nan` for `0 / 0` and a signed infinity otherwise, with a RuntimeWarning;
the program continues. -/
def pydiv (a b : ℚ) : PyFloat :=
  if b = 0 then
    if a = 0 then .nan
    else if 0 < a then .inf
    else .ninf
  else .fin (a / b)

/-- The triple `(msg_x, msg_y, msg_z)` published for a frame. -/
structure RelPos where
  x : PyFloat
  y : PyFloat
  z : ℚ
deriving DecidableEq, Repr

/-- What one iteration leaves on the colour frame before `imshow`:
the relative-position triple and, when a face was selected, the rectangle
around which `cv2.rectangle` and `cv2.putText` drew (`none` = the frame is
shown undecorated). -/
structure FrameOutput where
  relPos : RelPos
  overlay : Option Rect
deriving DecidableEq, Repr

/-- The per-frame body of the main loop, given the frame dimensions
`h, w = gray.shape` and the detector output `faces`.  It always completes:
a zero divisor `w // 2` or `h // 2` makes the numpy division yield a
non-finite `PyFloat` instead of raising. -/
def processFrame (w h : Nat) (faces : List Rect) : FrameOutput :=
  match selectLargest faces with
  | none => ⟨⟨.fin 0, .fin 0, 0⟩, none⟩
  | some f =>
    let cx : Nat := f.x + f.fw / 2
    let cy : Nat := f.y + f.fh / 2
    ⟨⟨pydiv ((cx : ℚ) - ((w / 2 : Nat) : ℚ)) ((w / 2 : Nat) : ℚ),
      pydiv ((cy : ℚ) - ((h / 2 : Nat) : ℚ)) ((h / 2 : Nat) : ℚ),
      ((f.fw * f.fh : Nat) : ℚ)⟩,
     some f⟩

/-- A frame as the loop sees it: its dimensions together with what the
(black-box) detector returns on its grayscale version. -/
structure FrameData where
  w : Nat
  h : Nat
  faces : List Rect
deriving DecidableEq, Repr

/-- Stub video source and display surface: `read j` is the result of the
`(j+1)`-st `cap.read()` call (`none` = `ret` false), and `visible j` is the
`getWindowProperty … ≥ 1` poll after showing the frame of iteration
`j+1`. -/
structure Sim where
  read : Nat → Option FrameData
  visible : Nat → Bool

/-- Externally visible actions of one run, in order. -/
inductive Act where
  | readFrame
  | showFrame
  | release
  | destroyAllWindows
deriving DecidableEq, Repr

/-- Why the `while True` loop stopped. -/
inductive ExitKind where
  | streamEnded
  | surfaceClosed
deriving DecidableEq, Repr

/-- Outcome of running the loop (from some call index) with given fuel:
number of complete iterations, number of `cap.read()` calls, the action
trace, and how it exited (`none` = fuel ran out first). -/
structure LoopOut where
  iters : Nat
  reads : Nat
  trace : List Act
  exit : Option ExitKind
deriving DecidableEq, Repr

/-- The `while True` loop against the stub `sim`, starting at read index
`i`, with explicit fuel.  Each iteration reads a frame (`break` when `ret`
is false), runs the per-frame body — which always completes, see
`processFrame` — shows the frame, and `break`s when the window is no
longer visible. -/
def loopRun (sim : Sim) : Nat → Nat → LoopOut
  | 0, _ => ⟨0, 0, [], none⟩
  | fuel + 1, i =>
    match sim.read i with
    | none => ⟨0, 1, [.readFrame], some .streamEnded⟩
    | some _ =>
      if sim.visible i then
        let rest := loopRun sim fuel (i + 1)
        ⟨rest.iters + 1, rest.reads + 1,
         .readFrame :: .showFrame :: rest.trace, rest.exit⟩
      else
        ⟨1, 1, [.readFrame, .showFrame], some .surfaceClosed⟩

/-- Final state of a whole run. -/
inductive ProgResult where
  | startupError (msg : String)
  | ended (iters reads : Nat)
  | closed (iters reads : Nat)
  | fuelOut
deriving DecidableEq, Repr

/-- Trace and result of a whole run. -/
structure ProgOut where
  trace : List Act
  result : ProgResult
deriving DecidableEq, Repr

/-- The whole script: `raise RuntimeError("Camera not accesible")` when the
capture did not open, otherwise the main loop followed, on a normal loop
exit (`break`), by `cap.release()` and `cv2.destroyAllWindows()`. -/
def program (opened : Bool) (sim : Sim) (fuel : Nat) : ProgOut :=
  if opened then
    let lo := loopRun sim fuel 0
    match lo.exit with
    | some .streamEnded =>
        ⟨lo.trace ++ [.release, .destroyAllWindows], .ended lo.iters lo.reads⟩
    | some .surfaceClosed =>
        ⟨lo.trace ++ [.release, .destroyAllWindows], .closed lo.iters lo.reads⟩
    | none => ⟨lo.trace, .fuelOut⟩
  else ⟨[], .startupError "Camera not accesible"⟩

/-- `read j` returns a frame (`ret` is true on that call). -/
def readOk (sim : Sim) (j : Nat) : Bool :=
  (sim.read j).isSome

/-- Iteration `j+1` runs completely and the loop moves on: the read
succeeds and the window is still visible afterwards. -/
def goodAt (sim : Sim) (j : Nat) : Bool :=
  readOk sim j && sim.visible j

/-- C2: on a frame whose detection set is empty, the published triple is
the sentinel `(0.0, 0.0, 0.0)` and nothing is drawn on the frame — it is
displayed undecorated. -/
theorem C2_empty_detections_sentinel (w h : Nat) :
    processFrame w h [] = ⟨⟨.fin 0, .fin 0, 0⟩, none⟩ := rfl

/-- The fold underlying `selectLargest` returns a maximal-area element of
`acc :: rs`, and the first maximal one: everything strictly before it in
the list has strictly smaller area. -/
lemma foldl_largerOf_spec (rs : List Rect) : ∀ acc : Rect,
    (∀ g ∈ acc :: rs, area g ≤ area (rs.foldl largerOf acc)) ∧
    ∃ l1 l2, acc :: rs = l1 ++ (rs.foldl largerOf acc) :: l2 ∧
      ∀ g ∈ l1, area g < area (rs.foldl largerOf acc) := by
  induction rs with
  | nil =>
    intro acc
    refine ⟨by simp, [], [], by simp, by simp⟩
  | cons c rs ih =>
    intro acc
    by_cases hc : area acc < area c
    · have hfold : (c :: rs).foldl largerOf acc = rs.foldl largerOf c := by
        simp [List.foldl, largerOf, hc]
      obtain ⟨hb, l1, l2, hdec, hlt⟩ := ih c
      have hcres : area c ≤ area (rs.foldl largerOf c) := hb c (by simp)
      rw [hfold]
      refine ⟨?_, acc :: l1, l2, ?_, ?_⟩
      · intro g hg
        rcases List.mem_cons.mp hg with hg | hg
        · exact hg ▸ le_of_lt (lt_of_lt_of_le hc hcres)
        · exact hb g hg
      · rw [List.cons_append, ← hdec]
      · intro g hg
        rcases List.mem_cons.mp hg with hg | hg
        · exact hg ▸ lt_of_lt_of_le hc hcres
        · exact hlt g hg
    · have hfold : (c :: rs).foldl largerOf acc = rs.foldl largerOf acc := by
        simp [List.foldl, largerOf, hc]
      obtain ⟨hb, l1, l2, hdec, hlt⟩ := ih acc
      have haccres : area acc ≤ area (rs.foldl largerOf acc) := hb acc (by simp)
      have hcacc : area c ≤ area acc := le_of_not_lt hc
      rw [hfold]
      refine ⟨?_, ?_⟩
      · intro g hg
        rcases List.mem_cons.mp hg with hg | hg
        · exact hg ▸ haccres
        · rcases List.mem_cons.mp hg with hg | hg
          · exact hg ▸ le_trans hcacc haccres
          · exact hb g (List.mem_cons_of_mem _ hg)
      · cases l1 with
        | nil =>
          simp only [List.nil_append] at hdec
          obtain ⟨hacc, hrs⟩ := List.cons.inj hdec
          exact ⟨[], c :: rs, by rw [List.nil_append, ← hacc], by simp⟩
        | cons a l1 =>
          simp only [List.cons_append] at hdec
          obtain ⟨hacc, hrs⟩ := List.cons.inj hdec
          have haccmax : area acc < area (rs.foldl largerOf acc) :=
            hacc ▸ hlt a (by simp)
          refine ⟨acc :: c :: l1, l2, ?_, ?_⟩
          · rw [List.cons_append, List.cons_append, ← hrs]
          · intro g hg
            rcases List.mem_cons.mp hg with hg | hg
            · exact hg ▸ haccmax
            · rcases List.mem_cons.mp hg with hg | hg
              · exact hg ▸ lt_of_le_of_lt hcacc haccmax
              · exact hlt g (hacc ▸ List.mem_cons_of_mem _ hg)

/-- C3: when the detection set is non-empty, the face chosen by
`max(faces, key=lambda rect: rect[2]*rect[3])` has maximal area among all
detected rectangles, and among equal-area maxima it is the first one in
the detector's enumeration order (every rectangle listed before it has
strictly smaller area). -/
theorem C3_selects_first_maximal (faces : List Rect) (f : Rect)
    (hsel : selectLargest faces = some f) :
    (∀ g ∈ faces, area g ≤ area f) ∧
    ∃ l1 l2, faces = l1 ++ f :: l2 ∧ ∀ g ∈ l1, area g < area f := by
  cases faces with
  | nil => exact absurd hsel (by simp [selectLargest])
  | cons r rs =>
    have hf : rs.foldl largerOf r = f := by
      simpa [selectLargest] using hsel
    obtain ⟨hb, l1, l2, hdec, hlt⟩ := foldl_largerOf_spec rs r
    rw [hf] at hb hdec hlt
    exact ⟨hb, l1, l2, hdec, hlt⟩

/-- Witness for C3 at a concrete tied input: areas are `6, 6, 1` and the
first area-6 rectangle is selected. -/
theorem C3_selects_first_maximal_witness :
    selectLargest [⟨0, 0, 2, 3⟩, ⟨1, 1, 3, 2⟩, ⟨5, 5, 1, 1⟩] =
      some ⟨0, 0, 2, 3⟩ ∧
    ((∀ g ∈ [Rect.mk 0 0 2 3, ⟨1, 1, 3, 2⟩, ⟨5, 5, 1, 1⟩],
        area g ≤ area ⟨0, 0, 2, 3⟩) ∧
      ∃ l1 l2, [Rect.mk 0 0 2 3, ⟨1, 1, 3, 2⟩, ⟨5, 5, 1, 1⟩] =
          l1 ++ Rect.mk 0 0 2 3 :: l2 ∧
        ∀ g ∈ l1, area g < area ⟨0, 0, 2, 3⟩) :=
  ⟨by decide, C3_selects_first_maximal _ _ (by decide)⟩

/-- When a face is selected, the output is exactly the record the source
computes: `msg_x = (cx - w // 2) / (w // 2)` with `cx = x + fw // 2`
(a numpy division, see `pydiv`), analogously `msg_y`, `msg_z = fw * fh`,
with the overlay drawn around the selected face. -/
lemma processFrame_fields (w h : Nat) (faces : List Rect) (f : Rect)
    (hsel : selectLargest faces = some f) :
    processFrame w h faces =
      ⟨⟨pydiv (((f.x + f.fw / 2 : Nat) : ℚ) - ((w / 2 : Nat) : ℚ))
          ((w / 2 : Nat) : ℚ),
        pydiv (((f.y + f.fh / 2 : Nat) : ℚ) - ((h / 2 : Nat) : ℚ))
          ((h / 2 : Nat) : ℚ),
        ((f.fw * f.fh : Nat) : ℚ)⟩, some f⟩ := by
  simp [processFrame, hsel]

/-- A numpy division by a nonzero divisor is the exact finite quotient. -/
lemma pydiv_of_ne (a b : ℚ) (hb : b ≠ 0) : pydiv a b = .fin (a / b) := by
  simp [pydiv, hb]

/-- A numpy division result is finite exactly when the divisor is
nonzero. -/
lemma pydiv_isFinite (a b : ℚ) : (pydiv a b).isFinite = true ↔ b ≠ 0 := by
  unfold pydiv
  split_ifs with h1 h2 h3 <;> simp [PyFloat.isFinite, h1]

/-- For an even dimension the floored half equals the exact half. -/
lemma half_cast_of_even (w : Nat) (hwe : w % 2 = 0) :
    ((w / 2 : Nat) : ℚ) = (w : ℚ) / 2 := by
  have h2 : w / 2 * 2 = w := Nat.div_mul_cancel (Nat.dvd_of_mod_eq_zero hwe)
  field_simp
  exact_mod_cast h2

/-- C1 counterexample: the claim demands
`x̂ = (cx − W/2) / (W/2)` with exact halves for every width, including odd
`W`.  At `W = 3`, `H = 2` with the single detection `(0, 0, 2, 2)` the
code's floored center is `cx = 1` (also the exact center) and the code
publishes `x̂ = (1 − 3//2) / (3//2) = 0`, while the claimed value is
`(1 − 3/2) / (3/2) = −1/3`. -/
theorem C1_normalization_counterexample :
    processFrame 3 2 [⟨0, 0, 2, 2⟩] =
      ⟨⟨.fin 0, .fin 0, 4⟩, some ⟨0, 0, 2, 2⟩⟩ ∧
    ¬ ((0 : ℚ) = (((0 + 2 / 2 : Nat) : ℚ) - (3 : ℚ) / 2) / ((3 : ℚ) / 2)) := by
  constructor
  · norm_num [processFrame, selectLargest, largerOf, pydiv]
  · norm_num

/-- C1 amended: for frames whose width and height are even (and at least
2, so the divisors are nonzero), the computed offsets equal the spec's
exact-half formula `x̂ = (cx − W/2) / (W/2)` (and `ŷ` analogously) with
the code's face center `cx = x + fw // 2`; for odd dimensions the code
divides by the floored half instead. -/
theorem C1_normalization_even_dims (w h : Nat) (faces : List Rect)
    (f : Rect) (out : FrameOutput)
    (hproc : processFrame w h faces = out)
    (hsel : selectLargest faces = some f)
    (hw2 : 2 ≤ w) (hh2 : 2 ≤ h)
    (hwe : w % 2 = 0) (hhe : h % 2 = 0) :
    out.relPos.x =
      .fin ((((f.x + f.fw / 2 : Nat) : ℚ) - (w : ℚ) / 2) / ((w : ℚ) / 2)) ∧
    out.relPos.y =
      .fin ((((f.y + f.fh / 2 : Nat) : ℚ) - (h : ℚ) / 2) / ((h : ℚ) / 2)) := by
  rw [processFrame_fields w h faces f hsel] at hproc
  subst hproc
  have hwne : ((w / 2 : Nat) : ℚ) ≠ 0 := Nat.cast_ne_zero.mpr (by omega)
  have hhne : ((h / 2 : Nat) : ℚ) ≠ 0 := Nat.cast_ne_zero.mpr (by omega)
  constructor
  · show pydiv (((f.x + f.fw / 2 : Nat) : ℚ) - ((w / 2 : Nat) : ℚ))
        ((w / 2 : Nat) : ℚ) =
      .fin ((((f.x + f.fw / 2 : Nat) : ℚ) - (w : ℚ) / 2) / ((w : ℚ) / 2))
    rw [pydiv_of_ne _ _ hwne, half_cast_of_even w hwe]
  · show pydiv (((f.y + f.fh / 2 : Nat) : ℚ) - ((h / 2 : Nat) : ℚ))
        ((h / 2 : Nat) : ℚ) =
      .fin ((((f.y + f.fh / 2 : Nat) : ℚ) - (h : ℚ) / 2) / ((h : ℚ) / 2))
    rw [pydiv_of_ne _ _ hhne, half_cast_of_even h hhe]

/-- Witness for the amended C1 at the spec's literal example: `W = 640`,
face `(430, 10, 100, 50)` has center `cx = 480` and the published
`x̂ = (480 − 320) / 320 = 0.5`. -/
theorem C1_normalization_even_dims_witness :
    processFrame 640 480 [⟨430, 10, 100, 50⟩] =
      ⟨⟨.fin (1/2), .fin (-41/48), 5000⟩, some ⟨430, 10, 100, 50⟩⟩ ∧
    selectLargest [⟨430, 10, 100, 50⟩] = some ⟨430, 10, 100, 50⟩ ∧
    (2 ≤ 640) ∧ (2 ≤ 480) ∧ (640 % 2 = 0) ∧ (480 % 2 = 0) ∧
    (PyFloat.fin (1/2) =
        .fin ((((430 + 100 / 2 : Nat) : ℚ) - (640 : ℚ) / 2) /
          ((640 : ℚ) / 2)) ∧
      PyFloat.fin (-41/48) =
        .fin ((((10 + 50 / 2 : Nat) : ℚ) - (480 : ℚ) / 2) /
          ((480 : ℚ) / 2))) := by
  have hproc : processFrame 640 480 [⟨430, 10, 100, 50⟩] =
      ⟨⟨.fin (1/2), .fin (-41/48), 5000⟩, some ⟨430, 10, 100, 50⟩⟩ := by
    norm_num [processFrame, selectLargest, largerOf, pydiv]
  exact ⟨hproc, by decide, by decide, by decide, by decide, by decide,
    C1_normalization_even_dims 640 480 [⟨430, 10, 100, 50⟩]
      ⟨430, 10, 100, 50⟩ ⟨⟨.fin (1/2), .fin (-41/48), 5000⟩,
        some ⟨430, 10, 100, 50⟩⟩
      hproc (by decide) (by decide) (by decide) (by decide) (by decide)⟩

/-- C4: a face whose computed center is exactly the frame center
(`cx = W/2` and `cy = H/2`, exact halves, with non-degenerate frame
dimensions `W, H ≥ 2`) yields `x̂ = ŷ = 0`, whatever the face's width and
height. -/
theorem C4_centered_face_zero_offsets (w h : Nat) (faces : List Rect)
    (f : Rect) (out : FrameOutput)
    (hproc : processFrame w h faces = out)
    (hsel : selectLargest faces = some f)
    (hw2 : 2 ≤ w) (hh2 : 2 ≤ h)
    (hcx : ((f.x + f.fw / 2 : Nat) : ℚ) = (w : ℚ) / 2)
    (hcy : ((f.y + f.fh / 2 : Nat) : ℚ) = (h : ℚ) / 2) :
    out.relPos.x = .fin 0 ∧ out.relPos.y = .fin 0 := by
  rw [processFrame_fields w h faces f hsel] at hproc
  subst hproc
  have hwnat : w = 2 * (f.x + f.fw / 2) := by
    have : (w : ℚ) = 2 * ((f.x + f.fw / 2 : Nat) : ℚ) := by linarith
    exact_mod_cast this
  have hhnat : h = 2 * (f.y + f.fh / 2) := by
    have : (h : ℚ) = 2 * ((f.y + f.fh / 2 : Nat) : ℚ) := by linarith
    exact_mod_cast this
  have hwhalf : w / 2 = f.x + f.fw / 2 := by omega
  have hhhalf : h / 2 = f.y + f.fh / 2 := by omega
  have hwne : ((w / 2 : Nat) : ℚ) ≠ 0 := Nat.cast_ne_zero.mpr (by omega)
  have hhne : ((h / 2 : Nat) : ℚ) ≠ 0 := Nat.cast_ne_zero.mpr (by omega)
  constructor
  · show pydiv (((f.x + f.fw / 2 : Nat) : ℚ) - ((w / 2 : Nat) : ℚ))
        ((w / 2 : Nat) : ℚ) = .fin 0
    rw [pydiv_of_ne _ _ hwne, hwhalf, sub_self, zero_div]
  · show pydiv (((f.y + f.fh / 2 : Nat) : ℚ) - ((h / 2 : Nat) : ℚ))
        ((h / 2 : Nat) : ℚ) = .fin 0
    rw [pydiv_of_ne _ _ hhne, hhhalf, sub_self, zero_div]

/-- Witness for C4: a 60×80 face centered at (320, 240) in a 640×480
frame gives offsets exactly `(0, 0)`. -/
theorem C4_centered_face_zero_offsets_witness :
    processFrame 640 480 [⟨290, 200, 60, 80⟩] =
      ⟨⟨.fin 0, .fin 0, 4800⟩, some ⟨290, 200, 60, 80⟩⟩ ∧
    selectLargest [⟨290, 200, 60, 80⟩] = some ⟨290, 200, 60, 80⟩ ∧
    (2 ≤ 640) ∧ (2 ≤ 480) ∧
    ((290 + 60 / 2 : Nat) : ℚ) = (640 : ℚ) / 2 ∧
    ((200 + 80 / 2 : Nat) : ℚ) = (480 : ℚ) / 2 ∧
    (PyFloat.fin 0 = .fin 0 ∧ PyFloat.fin 0 = .fin 0) := by
  have hproc : processFrame 640 480 [⟨290, 200, 60, 80⟩] =
      ⟨⟨.fin 0, .fin 0, 4800⟩, some ⟨290, 200, 60, 80⟩⟩ := by
    norm_num [processFrame, selectLargest, largerOf, pydiv]
  exact ⟨hproc, by decide, by decide, by decide, by norm_num, by norm_num,
    C4_centered_face_zero_offsets 640 480 [⟨290, 200, 60, 80⟩]
      ⟨290, 200, 60, 80⟩ ⟨⟨.fin 0, .fin 0, 4800⟩, some ⟨290, 200, 60, 80⟩⟩
      hproc (by decide) (by decide) (by decide) (by norm_num) (by norm_num)⟩

/-- C5: the third component of the published triple is exactly the
selected face's bounding-box area `fw * fh` in pixel units, not a
fraction of the frame area. -/
theorem C5_area_is_pixel_area (w h : Nat) (faces : List Rect)
    (f : Rect) (out : FrameOutput)
    (hproc : processFrame w h faces = out)
    (hsel : selectLargest faces = some f) :
    out.relPos.z = ((f.fw * f.fh : Nat) : ℚ) := by
  rw [processFrame_fields w h faces f hsel] at hproc
  subst hproc
  rfl

/-- Witness for C5 at the spec's literal example: `fw = 100`, `fh = 50`
gives area `5000` even though the frame has `640 × 480` pixels. -/
theorem C5_area_is_pixel_area_witness :
    processFrame 640 480 [⟨10, 10, 100, 50⟩] =
      ⟨⟨.fin (-13/16), .fin (-41/48), 5000⟩, some ⟨10, 10, 100, 50⟩⟩ ∧
    selectLargest [⟨10, 10, 100, 50⟩] = some ⟨10, 10, 100, 50⟩ ∧
    (FrameOutput.mk ⟨.fin (-13/16), .fin (-41/48), 5000⟩
        (some ⟨10, 10, 100, 50⟩)).relPos.z = ((100 * 50 : Nat) : ℚ) ∧
    ((100 * 50 : Nat) : ℚ) = 5000 := by
  have hproc : processFrame 640 480 [⟨10, 10, 100, 50⟩] =
      ⟨⟨.fin (-13/16), .fin (-41/48), 5000⟩, some ⟨10, 10, 100, 50⟩⟩ := by
    norm_num [processFrame, selectLargest, largerOf, pydiv]
  exact ⟨hproc, by decide,
    C5_area_is_pixel_area 640 480 [⟨10, 10, 100, 50⟩] ⟨10, 10, 100, 50⟩
      ⟨⟨.fin (-13/16), .fin (-41/48), 5000⟩, some ⟨10, 10, 100, 50⟩⟩
      hproc (by decide),
    by norm_num⟩

/-- Stub source for the C10 counterexample: one 1×5 frame carrying a
detection, then end of stream; the window never closes. -/
def simC10 : Sim :=
  ⟨fun j => if j = 0 then some ⟨1, 5, [⟨0, 0, 1, 1⟩]⟩ else none,
   fun _ => true⟩

/-- C10 counterexample: the claim says a frame of width 0 or 1 with a
detection "makes the computation fail".  It does not: at `w = 1` the
divisor `w // 2` is `0`, numpy division yields `nan` (here `0 / 0`), the
per-frame body completes with that non-finite offset, the frame is shown,
and the loop continues to the next read and terminates normally. -/
theorem C10_width_one_no_failure_counterexample :
    processFrame 1 5 [⟨0, 0, 1, 1⟩] =
      ⟨⟨.nan, .fin (-1), 1⟩, some ⟨0, 0, 1, 1⟩⟩ ∧
    (program true simC10 2).result = .ended 1 2 ∧
    (program true simC10 2).trace =
      [.readFrame, .showFrame, .readFrame, .release, .destroyAllWindows] := by
  refine ⟨?_, by decide, by decide⟩
  norm_num [processFrame, selectLargest, largerOf, pydiv]

/-- C10 amended: the offset normalization divides by `w // 2` and
`h // 2` without any guard, and both offsets are finite exactly when the
frame width and height are each at least 2; under that precondition the
division-by-zero branch is unreachable, while a frame of width or height
0 or 1 with at least one detection divides by zero — numpy yields a
non-finite `inf`/`nan` offset with a RuntimeWarning, the iteration
completing normally rather than failing. -/
theorem C10_division_guard (w h : Nat) (faces : List Rect)
    (hne : faces ≠ []) :
    (((processFrame w h faces).relPos.x).isFinite = true ∧
      ((processFrame w h faces).relPos.y).isFinite = true) ↔
    (2 ≤ w ∧ 2 ≤ h) := by
  obtain ⟨r, rs, rfl⟩ := List.exists_cons_of_ne_nil hne
  have hsel : selectLargest (r :: rs) = some (rs.foldl largerOf r) := rfl
  rw [processFrame_fields w h (r :: rs) _ hsel]
  show (pydiv _ _).isFinite = true ∧ (pydiv _ _).isFinite = true ↔ _
  rw [pydiv_isFinite, pydiv_isFinite]
  simp only [ne_eq, Nat.cast_eq_zero]
  omega

/-- Witness for C10: a width-1 frame with one detection has a non-finite
horizontal offset (`isFinite` is false), matching `¬(2 ≤ 1)`. -/
theorem C10_division_guard_witness :
    [Rect.mk 0 0 1 1] ≠ [] ∧
    ((((processFrame 1 5 [⟨0, 0, 1, 1⟩]).relPos.x).isFinite = true ∧
        ((processFrame 1 5 [⟨0, 0, 1, 1⟩]).relPos.y).isFinite = true) ↔
      (2 ≤ 1 ∧ 2 ≤ 5)) :=
  ⟨by decide, C10_division_guard 1 5 [⟨0, 0, 1, 1⟩] (by decide)⟩

/-- If the first `n` iterations (from read index `i`) are good and read
`i + n` yields no frame, the loop exits with `streamEnded` after exactly
`n` complete iterations and `n + 1` read calls. -/
lemma loopRun_streamEnded (sim : Sim) : ∀ n fuel i, n < fuel →
    (∀ k, k < n → goodAt sim (i + k) = true) →
    sim.read (i + n) = none →
    (loopRun sim fuel i).exit = some .streamEnded ∧
    (loopRun sim fuel i).iters = n ∧
    (loopRun sim fuel i).reads = n + 1 := by
  intro n
  induction n with
  | zero =>
    intro fuel i hfuel hgood hfail
    obtain ⟨f, rfl⟩ : ∃ f, fuel = f + 1 := ⟨fuel - 1, by omega⟩
    rw [Nat.add_zero] at hfail
    simp [loopRun, hfail]
  | succ n ih =>
    intro fuel i hfuel hgood hfail
    obtain ⟨f, rfl⟩ : ∃ f, fuel = f + 1 := ⟨fuel - 1, by omega⟩
    have hg0 : goodAt sim i = true := by
      have := hgood 0 (Nat.succ_pos n)
      rwa [Nat.add_zero] at this
    simp only [goodAt, readOk, Bool.and_eq_true] at hg0
    obtain ⟨hro, hvis⟩ := hg0
    obtain ⟨fr, hread⟩ := Option.isSome_iff_exists.mp hro
    have hrest := ih f (i + 1) (by omega)
      (by
        intro k hk
        have := hgood (k + 1) (by omega)
        rwa [show i + (k + 1) = i + 1 + k by omega] at this)
      (by rwa [show i + (n + 1) = i + 1 + n by omega] at hfail)
    simp only [loopRun, hread, hvis, if_true]
    exact ⟨hrest.1, by rw [hrest.2.1], by rw [hrest.2.2]⟩

/-- If the first `m` iterations (from read index `i`) are good, iteration
`i + m` reads a frame, and the window is then no longer visible, the loop
exits with `surfaceClosed` after `m + 1` complete iterations and `m + 1`
read calls. -/
lemma loopRun_surfaceClosed (sim : Sim) : ∀ m fuel i, m < fuel →
    (∀ k, k < m → goodAt sim (i + k) = true) →
    readOk sim (i + m) = true →
    sim.visible (i + m) = false →
    (loopRun sim fuel i).exit = some .surfaceClosed ∧
    (loopRun sim fuel i).iters = m + 1 ∧
    (loopRun sim fuel i).reads = m + 1 := by
  intro m
  induction m with
  | zero =>
    intro fuel i hfuel hgood hro hvis
    obtain ⟨f, rfl⟩ : ∃ f, fuel = f + 1 := ⟨fuel - 1, by omega⟩
    rw [Nat.add_zero] at hro hvis
    simp only [readOk] at hro
    obtain ⟨fr, hread⟩ := Option.isSome_iff_exists.mp hro
    simp [loopRun, hread, hvis]
  | succ m ih =>
    intro fuel i hfuel hgood hro hvis
    obtain ⟨f, rfl⟩ : ∃ f, fuel = f + 1 := ⟨fuel - 1, by omega⟩
    have hg0 : goodAt sim i = true := by
      have := hgood 0 (Nat.succ_pos m)
      rwa [Nat.add_zero] at this
    simp only [goodAt, readOk, Bool.and_eq_true] at hg0
    obtain ⟨hro0, hvis0⟩ := hg0
    obtain ⟨fr, hread⟩ := Option.isSome_iff_exists.mp hro0
    have hrest := ih f (i + 1) (by omega)
      (by
        intro k hk
        have := hgood (k + 1) (by omega)
        rwa [show i + (k + 1) = i + 1 + k by omega] at this)
      (by rwa [show i + (m + 1) = i + 1 + m by omega] at hro)
      (by rwa [show i + (m + 1) = i + 1 + m by omega] at hvis)
    simp only [loopRun, hread, hvis0, if_true]
    exact ⟨hrest.1, by rw [hrest.2.1], by rw [hrest.2.2]⟩

/-- The loop itself never releases the capture nor destroys windows:
those actions happen only after it. -/
lemma loopRun_trace_clean (sim : Sim) : ∀ fuel i,
    Act.release ∉ (loopRun sim fuel i).trace ∧
    Act.destroyAllWindows ∉ (loopRun sim fuel i).trace := by
  intro fuel
  induction fuel with
  | zero => intro i; simp [loopRun]
  | succ f ih =>
    intro i
    rcases hread : sim.read i with _ | fr
    · simp [loopRun, hread]
    · rcases hvis : sim.visible i with _ | _
      · simp [loopRun, hread, hvis]
      · have := ih (i + 1)
        simp only [loopRun, hread, hvis, if_true, List.mem_cons]
        constructor
        · rintro (h | h | h) <;> first | cases h | exact this.1 h
        · rintro (h | h | h) <;> first | cases h | exact this.2 h

/-- C6: when the stub source yields frames on its first `n` read calls
while the window stays visible, and call `n + 1` (the spec's call `N`)
returns no frame, the run performs exactly `n = N − 1` complete
iterations, makes exactly `n + 1` read calls (the failed read is never
retried), and ends normally with the end-of-stream result, not an
error. -/
theorem C6_stream_end_after_failed_read (sim : Sim) (n fuel : Nat)
    (hfuel : n < fuel)
    (hgood : ∀ k, k < n → goodAt sim k = true)
    (hfail : sim.read n = none) :
    (program true sim fuel).result = .ended n (n + 1) := by
  have h := loopRun_streamEnded sim n fuel 0 hfuel
    (by intro k hk; simpa using hgood k hk) (by simpa using hfail)
  simp only [program, if_true]
  rw [h.1]
  simp only []
  rw [h.2.1, h.2.2]

/-- Stub source for the C6 witness: two frames, then end of stream; the
window never closes. -/
def simC6 : Sim :=
  ⟨fun j => if j < 2 then some ⟨640, 480, []⟩ else none, fun _ => true⟩

/-- Witness for C6: with frames on reads 1 and 2 and a failed read 3
(`N = 3`), the run does exactly 2 iterations and 3 reads. -/
theorem C6_stream_end_after_failed_read_witness :
    (2 < 3) ∧ (∀ k, k < 2 → goodAt simC6 k = true) ∧
    simC6.read 2 = none ∧
    (program true simC6 3).result = .ended 2 3 :=
  ⟨by decide, by decide, by decide,
    C6_stream_end_after_failed_read simC6 2 3 (by decide) (by decide)
      (by decide)⟩

/-- C7: when the stub display first reports not-visible after showing the
frame of iteration `m + 1` (the spec's iteration `M`), the loop finishes
that iteration and terminates immediately: exactly `m + 1 = M` complete
iterations and no further read. -/
theorem C7_terminates_when_surface_closed (sim : Sim) (m fuel : Nat)
    (hfuel : m < fuel)
    (hgood : ∀ k, k < m → goodAt sim k = true)
    (hread : readOk sim m = true)
    (hvis : sim.visible m = false) :
    (program true sim fuel).result = .closed (m + 1) (m + 1) := by
  have h := loopRun_surfaceClosed sim m fuel 0 hfuel
    (by intro k hk; simpa using hgood k hk) (by simpa using hread)
    (by simpa using hvis)
  simp only [program, if_true]
  rw [h.1]
  simp only []
  rw [h.2.1, h.2.2]

/-- Stub source and display for the C7 witness: frames forever, the
window closed after the second iteration. -/
def simC7 : Sim := ⟨fun _ => some ⟨640, 480, []⟩, fun j => j == 0⟩

/-- Witness for C7: not-visible is first reported after iteration 2
(`M = 2`), and the run stops with exactly 2 iterations and 2 reads. -/
theorem C7_terminates_when_surface_closed_witness :
    (1 < 5) ∧ (∀ k, k < 1 → goodAt simC7 k = true) ∧
    readOk simC7 1 = true ∧ simC7.visible 1 = false ∧
    (program true simC7 5).result = .closed 2 2 :=
  ⟨by decide, by decide, by decide, by decide,
    C7_terminates_when_surface_closed simC7 1 5 (by decide) (by decide)
      (by decide) (by decide)⟩

/-- C8: when the video source cannot be opened the program raises
`RuntimeError("Camera not accesible")` and never enters the main loop —
its action trace is empty, so no frame is read, processed or shown. -/
theorem C8_startup_open_failure (sim : Sim) (fuel : Nat) :
    program false sim fuel = ⟨[], .startupError "Camera not accesible"⟩ := by
  simp [program]

/-- C9: on every run whose loop exits normally — end of stream or window
closed — the capture is released and all windows destroyed, each exactly
once, and both only after every loop action. -/
theorem C9_resources_released_once (sim : Sim) (fuel : Nat)
    (h : (∃ a b, (program true sim fuel).result = .ended a b) ∨
      (∃ a b, (program true sim fuel).result = .closed a b)) :
    ∃ t, (program true sim fuel).trace = t ++ [.release, .destroyAllWindows] ∧
      Act.release ∉ t ∧ Act.destroyAllWindows ∉ t ∧
      (program true sim fuel).trace.count .release = 1 ∧
      (program true sim fuel).trace.count .destroyAllWindows = 1 := by
  have hclean := loopRun_trace_clean sim fuel 0
  rcases hexit : (loopRun sim fuel 0).exit with _ | ek
  · exfalso
    rcases h with ⟨a, b, hr⟩ | ⟨a, b, hr⟩ <;>
      · simp only [program, if_true] at hr
        rw [hexit] at hr
        cases hr
  · cases ek with
    | streamEnded =>
      have htr : (program true sim fuel).trace =
          (loopRun sim fuel 0).trace ++ [.release, .destroyAllWindows] := by
        simp only [program, if_true]
        rw [hexit]
      refine ⟨(loopRun sim fuel 0).trace, htr, hclean.1, hclean.2, ?_, ?_⟩
      · rw [htr]
        simp [List.count_append, List.count_eq_zero.mpr hclean.1]
      · rw [htr]
        simp [List.count_append, List.count_eq_zero.mpr hclean.2]
    | surfaceClosed =>
      have htr : (program true sim fuel).trace =
          (loopRun sim fuel 0).trace ++ [.release, .destroyAllWindows] := by
        simp only [program, if_true]
        rw [hexit]
      refine ⟨(loopRun sim fuel 0).trace, htr, hclean.1, hclean.2, ?_, ?_⟩
      · rw [htr]
        simp [List.count_append, List.count_eq_zero.mpr hclean.1]
      · rw [htr]
        simp [List.count_append, List.count_eq_zero.mpr hclean.2]

/-- Stub source for the C9 witness: the very first read fails. -/
def simC9 : Sim := ⟨fun _ => none, fun _ => true⟩

/-- Witness for C9 on a run that ends at once by end of stream: the trace
is `read; release; destroyAllWindows`. -/
theorem C9_resources_released_once_witness :
    ((∃ a b, (program true simC9 1).result = .ended a b) ∨
      (∃ a b, (program true simC9 1).result = .closed a b)) ∧
    (∃ t, (program true simC9 1).trace =
        t ++ [.release, .destroyAllWindows] ∧
      Act.release ∉ t ∧ Act.destroyAllWindows ∉ t ∧
      (program true simC9 1).trace.count .release = 1 ∧
      (program true simC9 1).trace.count .destroyAllWindows = 1) :=
  ⟨Or.inl ⟨0, 1, by decide⟩,
    C9_resources_released_once simC9 1 (Or.inl ⟨0, 1, by decide⟩)⟩
